import Mathlib

/-!
# drcov trace writer: a shallow embedding

This file embeds the data model and operations of a small code-coverage
trace recorder (drcov file format writer) and proves properties of the
embedding.

Modelling conventions:
* Machine integers (`u64`, `u32`, `u16`, `usize`) are `Nat`, with explicit
  bounds (`U32_MAX`, `U16_MAX`) wherever the source checks or truncates.
* A Rust function that can panic is embedded as a function into
  `MkOutcome`, whose `panicked` constructor carries the panic message; a
  normal return is `ok`.  `assert!`, `expect` and `unwrap` map to
  `panicked` branches in source order.
* Sequential writes to an output sink are embedded as a list of emitted
  items (`OutItem`): each text line becomes `OutItem.line`, each raw
  8-byte basic-block record becomes `OutItem.bytes`.  Byte values are
  `Nat`s below 256, little-endian (the host order of the reference
  implementation).
-/

namespace Drcov

/-- Largest value of a 32-bit unsigned integer. -/
def U32_MAX : Nat := 2 ^ 32 - 1

/-- Largest value of a 16-bit unsigned integer. -/
def U16_MAX : Nat := 2 ^ 16 - 1

/-- Outcome of calling a Rust function that may panic: either a normal
return value or a panic with its message. -/
inductive MkOutcome (α : Type) where
  | ok (a : α)
  | panicked (msg : String)
deriving DecidableEq

/-- `true` iff the call returned normally. -/
def MkOutcome.isOk {α : Type} : MkOutcome α → Bool
  | .ok _ => true
  | .panicked _ => false

/-- The drcov file format version (source: `enum Version`). -/
inductive Version where
  | V2
  | V3
deriving DecidableEq

/-- `Display` for `Version`: `V2` prints as "2", `V3` as "3". -/
def Version.display : Version → String
  | .V2 => "2"
  | .V3 => "3"

/-- One loaded code image's address range and name
(source: `struct Module`).  `base` and `end` are `u64` addresses. -/
structure Module where
  name : String
  base : Nat
  «end» : Nat
deriving DecidableEq

/-- `Module::contains`: `self.base <= address && address < self.end`. -/
def Module.contains (m : Module) (address : Nat) : Bool :=
  decide (m.base ≤ address) && decide (address < m.«end»)

/-- `Module::new`: asserts `base < end`, then asserts
`(end - base) <= u32::MAX as u64`; a failed assertion panics with the
assertion's message. -/
def Module.new (name : String) (base «end» : Nat) : MkOutcome Module :=
  if base < «end» then
    if «end» - base ≤ U32_MAX then
      .ok ⟨name, base, «end»⟩
    else
      .panicked "Module sizes > u32::MAX are not representable"
  else
    .panicked "`base` must be before `end`"

/-- One executed basic block (source: `struct BasicBlockEntry`);
`start` is `u32`, `size` and `mod_id` are `u16`. -/
structure BasicBlockEntry where
  start : Nat
  size : Nat
  mod_id : Nat
deriving DecidableEq

/-- A coverage trace (source: `struct Trace`). -/
structure Trace where
  modules : List Module
  entries : List BasicBlockEntry
  flavor : String
  version : Version
deriving DecidableEq

/-- `Trace::new`: copies the module list, starts with no entries,
flavor "drcov", default version V2. -/
def Trace.new (modules : List Module) : Trace :=
  { modules := modules, entries := [], flavor := "drcov", version := .V2 }

/-- `Trace::get_module`: `self.modules.iter().find(|m| m.contains(address))`. -/
def Trace.get_module (t : Trace) (address : Nat) : Option Module :=
  t.modules.find? (fun m => m.contains address)

/-- `self.modules.iter().enumerate().find(|(_, m)| m.contains(address))`:
first module containing the address, with its index, counting from `i`. -/
def findContaining (ms : List Module) (address : Nat) (i : Nat) :
    Option (Nat × Module) :=
  match ms with
  | [] => none
  | m :: rest =>
    if m.contains address then some (i, m)
    else findContaining rest address (i + 1)

/-- `u64 -> u32` `try_into`: succeeds iff the value fits. -/
def u32TryFrom (n : Nat) : Option Nat :=
  if n ≤ U32_MAX then some n else none

/-- `usize -> u16` `try_into`: succeeds iff the value fits. -/
def u16TryFrom (n : Nat) : Option Nat :=
  if n ≤ U16_MAX then some n else none

/-- `Trace::add`: resolves the address against the module list
(`enumerate().find`); `expect` panics if no module contains it.  On a hit
it builds a `BasicBlockEntry` evaluating, in source order:
`start = (address - module.base).try_into().unwrap()` (panic on
overflow), `size = size.try_into().expect(...)` (panic if over `u16`),
`mod_id = id as u16` (silent truncation mod 2^16), and pushes the entry. -/
def Trace.add (t : Trace) (address : Nat) (size : Nat) : MkOutcome Trace :=
  match findContaining t.modules address 0 with
  | none => .panicked "No module found that contains that address"
  | some (id, m) =>
    match u32TryFrom (address - m.base) with
    | none => .panicked "called `Result::unwrap()` on an `Err` value"
    | some start =>
      match u16TryFrom size with
      | none => .panicked "Entry size is too large (u16::MAX < entry)"
      | some sz =>
        .ok { t with
              entries := t.entries ++ [⟨start, sz, id % 2 ^ 16⟩] }

/-- Rust `{:#x}` formatting: "0x" followed by lowercase hex digits. -/
def toHex (n : Nat) : String :=
  "0x" ++ String.mk (Nat.toDigits 16 n)

/-- One module-table row, exactly as
`writeln!(writer, "{id}, 0, {base:#x}, {end:#x}, 0, 0, {name}")` emits it
(without the trailing newline, which `OutItem.line` accounts for). -/
def moduleRow (id : Nat) (m : Module) : String :=
  toString id ++ ", 0, " ++ toHex m.base ++ ", " ++ toHex m.«end» ++
    ", 0, 0, " ++ m.name

/-- What a single sequential write to the output sink emits: a newline
terminated text line, or a run of raw bytes. -/
inductive OutItem where
  | line (s : String)
  | bytes (bs : List Nat)
deriving DecidableEq

/-- The `k` little-endian bytes of `v` (the in-memory bytes of a `k`-byte
unsigned integer on the little-endian reference host). -/
def toBytesLE : Nat → Nat → List Nat
  | 0, _ => []
  | k + 1, v => v % 256 :: toBytesLE k (v / 256)

/-- Reassemble a little-endian byte list into a number. -/
def fromBytesLE : List Nat → Nat
  | [] => 0
  | b :: bs => b + 256 * fromBytesLE bs

/-- `BasicBlockEntry::write`: an 8-byte buffer holding
`start.to_ne_bytes()` at offsets 0..4, `size.to_ne_bytes()` at 4..6 and
`mod_id.to_ne_bytes()` at 6..8, written with one `write_all`. -/
def BasicBlockEntry.encode (e : BasicBlockEntry) : List Nat :=
  toBytesLE 4 e.start ++ toBytesLE 2 e.size ++ toBytesLE 2 e.mod_id

/-- The module-table rows loop of `Trace::write`:
`for (id, module) in self.modules.iter().enumerate()`. -/
def writeModuleRows (id : Nat) : List Module → List OutItem
  | [] => []
  | m :: ms => .line (moduleRow id m) :: writeModuleRows (id + 1) ms

/-- The basic-block loop of `Trace::write`:
`for entry in &self.entries { entry.write(writer)?; }`. -/
def writeEntries : List BasicBlockEntry → List OutItem
  | [] => []
  | e :: es => .bytes e.encode :: writeEntries es

/-- `Trace::write`: the exact sequence of writes it performs, in source
order (headers, module table header and columns, module rows, BB table
header, binary records). -/
def Trace.write (t : Trace) : List OutItem :=
  OutItem.line ("DRCOV VERSION: " ++ t.version.display) ::
  OutItem.line ("DRCOV FLAVOR: " ++ t.flavor) ::
  OutItem.line ("Module Table: version 4, count " ++ toString t.modules.length) ::
  OutItem.line "Columns: id, containing_id, start, end, entry, offset, path" ::
  (writeModuleRows 0 t.modules ++
    (OutItem.line ("BB Table: " ++ toString t.entries.length ++ " bbs") ::
      writeEntries t.entries))

/-- Total number of raw binary bytes in an emitted item sequence (the
text lines are not part of the binary blob). -/
def binSize : List OutItem → Nat
  | [] => 0
  | .line _ :: rest => binSize rest
  | .bytes bs :: rest => bs.length + binSize rest

/-- The invariant `Module::new` establishes on every module it returns. -/
def Module.wf (m : Module) : Prop :=
  m.base < m.«end» ∧ m.«end» - m.base ≤ U32_MAX

/-! ## Concrete fixtures (the spec's worked scenario, and edge cases) -/

/-- The module `("abcd", 0x1000, 0x2000)` of the spec's scenario. -/
def mAbcd : Module := ⟨"abcd", 0x1000, 0x2000⟩

/-- The module `("libc.so", 0x555000, 0x556000)` of the spec's scenario. -/
def mLibc : Module := ⟨"libc.so", 0x555000, 0x556000⟩

/-- The spec's two-module list. -/
def demoModules : List Module := [mAbcd, mLibc]

/-- A fresh trace over `demoModules`. -/
def demoTrace : Trace := Trace.new demoModules

/-- First of two deliberately overlapping modules. -/
def mOverA : Module := ⟨"A", 0x1000, 0x2000⟩

/-- Second overlapping module; `[0x1800, 0x2000)` lies in both. -/
def mOverB : Module := ⟨"B", 0x1800, 0x2800⟩

/-- A trace whose two modules overlap, to exercise the tie-break. -/
def overlapTrace : Trace := Trace.new [mOverA, mOverB]

/-- Filler module repeated 2^16 times at the front of `bigModules`. -/
def mFill : Module := ⟨"fill", 0x1000, 0x2000⟩

/-- The module sitting at index 2^16 of `bigModules`. -/
def mLast : Module := ⟨"last", 0x3000, 0x4000⟩

/-- A module list with 2^16 + 1 entries: only the last one (index 65536)
contains the address 0x3000. -/
def bigModules : List Module := List.replicate 65536 mFill ++ [mLast]

/-- A fresh trace over `bigModules`. -/
def bigTrace : Trace := Trace.new bigModules

/-! ## Helper lemmas -/

theorem toBytesLE_length (k v : Nat) : (toBytesLE k v).length = k := by
  induction k generalizing v with
  | zero => rfl
  | succ k ih => simp [toBytesLE, ih]

theorem fromBytesLE_toBytesLE (k v : Nat) :
    fromBytesLE (toBytesLE k v) = v % 256 ^ k := by
  induction k generalizing v with
  | zero => simp [toBytesLE, fromBytesLE, Nat.mod_one]
  | succ k ih =>
    simp [toBytesLE, fromBytesLE, ih, pow_succ]
    rw [mul_comm ((256 : Nat) ^ k) 256]
    exact Nat.mod_mul.symm

theorem encode_length (e : BasicBlockEntry) : e.encode.length = 8 := by
  simp [BasicBlockEntry.encode, toBytesLE_length]

theorem findContaining_eq_none (ms : List Module) (a i : Nat)
    (h : ∀ m ∈ ms, m.contains a = false) : findContaining ms a i = none := by
  induction ms generalizing i with
  | nil => rfl
  | cons m rest ih =>
    have hm : m.contains a = false := h m (by simp)
    simp only [findContaining, hm, Bool.false_eq_true, if_false]
    exact ih _ (fun m' hm' => h m' (by simp [hm']))

theorem findContaining_first (ms : List Module) (a : Nat) (k i : Nat)
    (m : Module) (hk : ms[k]? = some m) (hc : m.contains a = true)
    (hfirst : ∀ j, j < k → ∀ mj, ms[j]? = some mj → mj.contains a = false) :
    findContaining ms a i = some (i + k, m) := by
  induction ms generalizing k i with
  | nil => simp at hk
  | cons m0 rest ih =>
    cases k with
    | zero =>
      simp only [List.getElem?_cons_zero, Option.some.injEq] at hk
      subst hk
      simp [findContaining, hc]
    | succ k =>
      have h0 : m0.contains a = false :=
        hfirst 0 (Nat.succ_pos _) m0 (by simp)
      simp only [findContaining, h0, Bool.false_eq_true, if_false]
      have hrec := ih k (i + 1) (by simpa using hk)
        (fun j hj mj hmj => hfirst (j + 1) (by omega) mj (by simpa using hmj))
      rw [hrec]
      have harith : i + 1 + k = i + (k + 1) := by omega
      rw [harith]

theorem find?_first_of_getElem (l : List Module) (p : Module → Bool)
    (k : Nat) (m : Module) (hk : l[k]? = some m) (hp : p m = true)
    (hfirst : ∀ j, j < k → ∀ mj, l[j]? = some mj → p mj = false) :
    l.find? p = some m := by
  induction l generalizing k with
  | nil => simp at hk
  | cons m0 rest ih =>
    cases k with
    | zero =>
      simp only [List.getElem?_cons_zero, Option.some.injEq] at hk
      subst hk
      simp [List.find?, hp]
    | succ k =>
      have h0 : p m0 = false := hfirst 0 (Nat.succ_pos _) m0 (by simp)
      simp only [List.find?, h0]
      exact ih k (by simpa using hk)
        (fun j hj mj hmj => hfirst (j + 1) (by omega) mj (by simpa using hmj))

theorem findContaining_replicate_append (n : Nat) (mA : Module)
    (l : List Module) (a i : Nat) (h : mA.contains a = false) :
    findContaining (List.replicate n mA ++ l) a i =
      findContaining l a (i + n) := by
  induction n generalizing i with
  | zero => simp
  | succ n ih =>
    rw [List.replicate_succ, List.cons_append]
    simp only [findContaining, h, Bool.false_eq_true, if_false]
    rw [ih]
    congr 1
    omega

theorem add_found (t : Trace) (a s k : Nat) (m : Module)
    (hfind : findContaining t.modules a 0 = some (k, m))
    (hstart : a - m.base ≤ U32_MAX) (hs : s ≤ U16_MAX) :
    t.add a s =
      .ok { t with entries := t.entries ++ [⟨a - m.base, s, k % 2 ^ 16⟩] } := by
  simp [Trace.add, hfind, u32TryFrom, u16TryFrom, hstart, hs]

theorem take_append_of_length (l₁ l₂ : List Nat) (n : Nat)
    (h : l₁.length = n) : (l₁ ++ l₂).take n = l₁ := by
  rw [← h, List.take_left]

theorem drop_append_of_length (l₁ l₂ : List Nat) (n : Nat)
    (h : l₁.length = n) : (l₁ ++ l₂).drop n = l₂ := by
  rw [← h, List.drop_left]

theorem offset_le_of_contains (m : Module) (a : Nat)
    (hwf : m.«end» - m.base ≤ U32_MAX) (hc : m.contains a = true) :
    a - m.base ≤ U32_MAX := by
  simp only [Module.contains, Bool.and_eq_true, decide_eq_true_eq] at hc
  omega

theorem writeModuleRows_eq (i : Nat) (ms : List Module) :
    writeModuleRows i ms =
      (List.enumFrom i ms).map (fun p => OutItem.line (moduleRow p.1 p.2)) := by
  induction ms generalizing i with
  | nil => rfl
  | cons m rest ih => simp [writeModuleRows, List.enumFrom, ih]

theorem writeEntries_eq (es : List BasicBlockEntry) :
    writeEntries es = es.map (fun e => OutItem.bytes e.encode) := by
  induction es with
  | nil => rfl
  | cons e es ih => simp [writeEntries, ih]

theorem binSize_append (l₁ l₂ : List OutItem) :
    binSize (l₁ ++ l₂) = binSize l₁ + binSize l₂ := by
  induction l₁ with
  | nil => simp [binSize]
  | cons x rest ih => cases x <;> simp [binSize, ih, Nat.add_assoc]

theorem binSize_writeModuleRows (i : Nat) (ms : List Module) :
    binSize (writeModuleRows i ms) = 0 := by
  induction ms generalizing i with
  | nil => rfl
  | cons m rest ih => simp [writeModuleRows, binSize, ih]

theorem binSize_writeEntries (es : List BasicBlockEntry) :
    binSize (writeEntries es) = 8 * es.length := by
  induction es with
  | nil => rfl
  | cons e es ih =>
    simp [writeEntries, binSize, ih, encode_length]
    omega

theorem bigModules_length_front : (List.replicate 65536 mFill).length = 65536 := by
  rw [List.length_replicate]

theorem bigModules_getElem_last : bigModules[65536]? = some mLast := by
  have h : (List.replicate 65536 mFill ++ [mLast])[65536]? =
      [mLast][65536 - (List.replicate 65536 mFill).length]? :=
    List.getElem?_append_right (le_of_eq bigModules_length_front)
  rw [bigModules, h, bigModules_length_front]
  rfl

theorem bigModules_getElem_lt (j : Nat) (hj : j < 65536) :
    bigModules[j]? = some mFill := by
  have h : (List.replicate 65536 mFill ++ [mLast])[j]? =
      if j < (List.replicate 65536 mFill).length then
        (List.replicate 65536 mFill)[j]?
      else [mLast][j - (List.replicate 65536 mFill).length]? :=
    List.getElem?_append
  rw [bigModules, h, if_pos (by rw [bigModules_length_front]; exact hj)]
  rw [List.getElem?_replicate, if_pos hj]

theorem findContaining_bigModules :
    findContaining bigModules 0x3000 0 = some (65536, mLast) := by
  rw [bigModules,
    findContaining_replicate_append 65536 mFill [mLast] 0x3000 0 (by decide)]
  decide

/-! ## Claim theorems -/

/-- C8: `Module::contains` returns true exactly when
`base ≤ address < end` (base inclusive, end exclusive); it is a pure
function of the module and the address, with no side effects. -/
theorem C8_contains_iff (m : Module) (a : Nat) :
    m.contains a = true ↔ (m.base ≤ a ∧ a < m.«end») := by
  simp [Module.contains]

/-- C5: `Trace::get_module` (the spec's `resolve`) returns none when no
module in the list contains the address, and otherwise the first module
in module-list order (lowest id) that contains it — so for two
overlapping modules both containing the address, the smaller id wins. -/
theorem C5_resolve_first_match (t : Trace) (a : Nat) :
    ((∀ m ∈ t.modules, m.contains a = false) → t.get_module a = none) ∧
    (∀ (k : Nat) (m : Module), t.modules[k]? = some m → m.contains a = true →
      (∀ j, j < k → ∀ mj : Module, t.modules[j]? = some mj →
        mj.contains a = false) →
      t.get_module a = some m) := by
  constructor
  · intro h
    rw [Trace.get_module, List.find?_eq_none]
    intro m hm
    simp [h m hm]
  · intro k m hk hc hfirst
    exact find?_first_of_getElem t.modules _ k m hk hc hfirst

/-- Witness for C5: on the spec's trace, the unmapped address `0xdead`
resolves to none; on a trace with two overlapping modules, the address
`0x1900` (contained in both) resolves to the first one. -/
theorem C5_resolve_first_match_witness :
    demoTrace.get_module 0xdead = none ∧
    overlapTrace.get_module 0x1900 = some mOverA ∧
    mOverB.contains 0x1900 = true := by
  refine ⟨?_, ?_, by decide⟩
  · exact (C5_resolve_first_match demoTrace 0xdead).1 (by decide)
  · exact (C5_resolve_first_match overlapTrace 0x1900).2 0 mOverA (by rfl)
      (by decide) (fun j hj mj hmj => absurd hj (Nat.not_lt_zero j))

/-- C3 counterexample: on input violating `base < end`, `Module::new`
does not return a construction-error value to the caller — the call
panics (assertion failure), as this evaluation of the embedding shows. -/
theorem C3_counterexample :
    Module.new "bad" 0x2000 0x1000 = .panicked "`base` must be before `end`" := by
  rfl

/-- C3 (amended): `Module::new` returns a module with exactly the given
attributes when `base < end` and `end - base ≤ u32::MAX`; on any input
violating either condition it never returns normally — it panics via
`assert!` (rather than returning an error value), so the caller
receives no usable Module. -/
theorem C3_module_new_spec (n : String) (b e : Nat) :
    ((Module.new n b e).isOk = true ↔ (b < e ∧ e - b ≤ U32_MAX)) ∧
    (b < e → e - b ≤ U32_MAX → Module.new n b e = .ok ⟨n, b, e⟩) := by
  rw [Module.new]
  by_cases h1 : b < e
  · by_cases h2 : e - b ≤ U32_MAX
    · simp [h1, h2, MkOutcome.isOk]
    · simp [h1, h2, MkOutcome.isOk]
  · simp [h1, MkOutcome.isOk]

/-- Witness for C3: the spec's module `("abcd", 0x1000, 0x2000)` is
well-formed, so construction returns it unchanged. -/
theorem C3_module_new_spec_witness :
    (Module.new "abcd" 0x1000 0x2000).isOk = true ∧
    Module.new "abcd" 0x1000 0x2000 = .ok ⟨"abcd", 0x1000, 0x2000⟩ := by
  constructor
  · exact (C3_module_new_spec "abcd" 0x1000 0x2000).1.2 ⟨by decide, by decide⟩
  · exact (C3_module_new_spec "abcd" 0x1000 0x2000).2 (by decide) (by decide)

/-- C9: any module returned by a successful `Module::new` satisfies the
size invariant, so for every address it contains the offset
`address - base` is at most `u32::MAX` and the `u32` conversion inside
`Trace::add` succeeds — that unwrap's failure branch is unreachable. -/
theorem C9_start_fits (n : String) (b e a : Nat) (m : Module)
    (hnew : Module.new n b e = .ok m) (hc : m.contains a = true) :
    a - m.base ≤ U32_MAX ∧ u32TryFrom (a - m.base) = some (a - m.base) := by
  rw [Module.new] at hnew
  by_cases h1 : b < e
  · by_cases h2 : e - b ≤ U32_MAX
    · rw [if_pos h1, if_pos h2] at hnew
      cases hnew
      have hle := offset_le_of_contains ⟨n, b, e⟩ a h2 hc
      exact ⟨hle, by rw [u32TryFrom, if_pos hle]⟩
    · rw [if_pos h1, if_neg h2] at hnew
      cases hnew
  · rw [if_neg h1] at hnew
    cases hnew

/-- Witness for C9: the spec's first module contains `0x1204`, whose
offset `0x204` fits 32 bits and converts successfully. -/
theorem C9_start_fits_witness :
    0x1204 - (Module.mk "abcd" 0x1000 0x2000).base ≤ U32_MAX ∧
    u32TryFrom (0x1204 - (Module.mk "abcd" 0x1000 0x2000).base) =
      some (0x1204 - (Module.mk "abcd" 0x1000 0x2000).base) :=
  C9_start_fits "abcd" 0x1000 0x2000 0x1204 ⟨"abcd", 0x1000, 0x2000⟩
    (by rfl) (by decide)

/-- C1 counterexample: `record(0xdead, 10)` on the spec's two-module
trace does not return an out-of-range error value to the caller — in
the source this call hits `expect("No module found that contains that
address")` and panics, as this evaluation of the embedding shows. -/
theorem C1_counterexample :
    demoTrace.add 0xdead 10 =
      .panicked "No module found that contains that address" := by
  rfl

/-- C1 (amended): for every trace and every address contained in none of
its modules, `Trace::add` does not return an error value — it panics
(the `expect` on the failed module lookup) with this fixed message; the
panic fires before any push, so no entry is appended and no other trace
state changes. -/
theorem C1_add_unmapped_panics (t : Trace) (a s : Nat)
    (h : ∀ m ∈ t.modules, m.contains a = false) :
    t.add a s = .panicked "No module found that contains that address" := by
  rw [Trace.add, findContaining_eq_none t.modules a 0 h]

/-- Witness for C1: the address `0x5000` lies outside both overlapping
modules, so recording it panics. -/
theorem C1_add_unmapped_panics_witness :
    overlapTrace.add 0x5000 1 =
      .panicked "No module found that contains that address" :=
  C1_add_unmapped_panics overlapTrace 0x5000 1 (by decide)

/-- C2 counterexample: recording the mapped address `0x1204` with size
70000 (which exceeds `u16::MAX`) does not return a size-overflow error
value to the caller — the call panics via the `expect` on the size
conversion, as this evaluation of the embedding shows. -/
theorem C2_counterexample :
    demoTrace.add 0x1204 70000 =
      .panicked "Entry size is too large (u16::MAX < entry)" := by
  rfl

/-- C2 (amended): with the address inside a (first containing,
well-sized) module and a size exceeding `u16::MAX`, `Trace::add` does
not return an error value — it panics via the `expect` on the size
conversion; the size is never truncated, and the panic fires before
any push, so no entry is appended. -/
theorem C2_add_size_overflow_panics (t : Trace) (a s k : Nat) (m : Module)
    (hk : t.modules[k]? = some m) (hc : m.contains a = true)
    (hfirst : ∀ j, j < k → ∀ mj : Module, t.modules[j]? = some mj →
      mj.contains a = false)
    (hwf : m.«end» - m.base ≤ U32_MAX)
    (hs : U16_MAX < s) :
    t.add a s = .panicked "Entry size is too large (u16::MAX < entry)" := by
  have hfind : findContaining t.modules a 0 = some (0 + k, m) :=
    findContaining_first t.modules a k 0 m hk hc hfirst
  have hstart := offset_le_of_contains m a hwf hc
  have hsize : ¬ s ≤ U16_MAX := Nat.not_le.mpr hs
  simp [Trace.add, hfind, u32TryFrom, u16TryFrom, hstart, hsize]

/-- Witness for C2: `0x1900` lies in the first overlapping module and
the size `0x10000` does not fit 16 bits, so recording panics. -/
theorem C2_add_size_overflow_panics_witness :
    overlapTrace.add 0x1900 0x10000 =
      .panicked "Entry size is too large (u16::MAX < entry)" :=
  C2_add_size_overflow_panics overlapTrace 0x1900 0x10000 0 mOverA
    (by rfl) (by decide) (fun j hj mj hmj => absurd hj (Nat.not_lt_zero j))
    (by decide) (by decide)

/-- C4 counterexample: in a trace with 2^16 + 1 modules, recording the
address `0x3000`, resolved at module index `k = 65536`, appends an
entry whose `mod_id` is `0`, not `k` — `id as u16` truncated the index,
so the claim's `mod_id = k` fails for this reachable trace. -/
theorem C4_counterexample :
    bigTrace.add 0x3000 5 = .ok { bigTrace with entries := [⟨0, 5, 0⟩] } := by
  have h := add_found bigTrace 0x3000 5 65536 mLast findContaining_bigModules
    (by decide) (by decide)
  simpa [bigTrace, Trace.new, mLast] using h

/-- C4 (amended): when address `a` lies in the trace's first containing
module `m` at index `k`, the size fits `u16`, the module is well-sized,
and `k < 2^16` (the code stores `id as u16`, so the recorded id equals
`k` only below that bound), `add` appends exactly the entry
`{start = a - m.base, size = s, mod_id = k}` at the end of the entry
sequence, leaving the module list, flavor, version and earlier entries
unchanged; a second identical call appends a second identical record
rather than deduplicating. -/
theorem C4_add_appends (t : Trace) (a s k : Nat) (m : Module)
    (hk : t.modules[k]? = some m) (hc : m.contains a = true)
    (hfirst : ∀ j, j < k → ∀ mj : Module, t.modules[j]? = some mj →
      mj.contains a = false)
    (hwf : m.«end» - m.base ≤ U32_MAX) (hs : s ≤ U16_MAX)
    (hsmall : k < 2 ^ 16) :
    t.add a s = .ok { t with entries := t.entries ++ [⟨a - m.base, s, k⟩] } ∧
    Trace.add { t with entries := t.entries ++ [⟨a - m.base, s, k⟩] } a s =
      .ok { t with
            entries := t.entries ++ [⟨a - m.base, s, k⟩, ⟨a - m.base, s, k⟩] } := by
  have hfind : findContaining t.modules a 0 = some (0 + k, m) :=
    findContaining_first t.modules a k 0 m hk hc hfirst
  have hstart := offset_le_of_contains m a hwf hc
  have hmod : (0 + k) % 2 ^ 16 = k := by
    rw [Nat.zero_add]
    exact Nat.mod_eq_of_lt hsmall
  constructor
  · have h := add_found t a s (0 + k) m hfind hstart hs
    rw [hmod] at h
    exact h
  · have h := add_found { t with entries := t.entries ++ [⟨a - m.base, s, k⟩] }
      a s (0 + k) m hfind hstart hs
    rw [hmod] at h
    rw [h]
    simp

/-- Witness for C4: the spec's scenario — recording `(0x1204, 3)` twice
on the two-module trace appends `{start = 0x204, size = 3, mod_id = 0}`
twice, as two distinct records. -/
theorem C4_add_appends_witness :
    demoTrace.add 0x1204 3 =
      .ok { demoTrace with entries := [⟨0x204, 3, 0⟩] } ∧
    Trace.add { demoTrace with entries := [⟨0x204, 3, 0⟩] } 0x1204 3 =
      .ok { demoTrace with entries := [⟨0x204, 3, 0⟩, ⟨0x204, 3, 0⟩] } := by
  have h := C4_add_appends demoTrace 0x1204 3 0 mAbcd (by rfl) (by decide)
    (fun j hj mj hmj => absurd hj (Nat.not_lt_zero j)) (by decide) (by decide)
    (by decide)
  simpa [demoTrace, Trace.new, mAbcd] using h

/-- C10: when the address resolves to the module at index `k ≥ 2^16`
(first match, well-sized, size fitting), `add` silently stores
`mod_id = k % 2^16` — a strictly smaller index — rather than rejecting
the call, so the block is attributed to a different, lower-numbered
module in the output file. -/
theorem C10_mod_id_truncated (t : Trace) (a s k : Nat) (m : Module)
    (hk : t.modules[k]? = some m) (hc : m.contains a = true)
    (hfirst : ∀ j, j < k → ∀ mj : Module, t.modules[j]? = some mj →
      mj.contains a = false)
    (hwf : m.«end» - m.base ≤ U32_MAX) (hs : s ≤ U16_MAX)
    (hbig : 2 ^ 16 ≤ k) :
    t.add a s =
      .ok { t with entries := t.entries ++ [⟨a - m.base, s, k % 2 ^ 16⟩] } ∧
    k % 2 ^ 16 < k := by
  have hfind : findContaining t.modules a 0 = some (0 + k, m) :=
    findContaining_first t.modules a k 0 m hk hc hfirst
  have hstart := offset_le_of_contains m a hwf hc
  have h := add_found t a s (0 + k) m hfind hstart hs
  rw [Nat.zero_add] at h
  refine ⟨h, ?_⟩
  calc k % 2 ^ 16 < 2 ^ 16 := Nat.mod_lt k (by decide)
    _ ≤ k := hbig

/-- Witness for C10: on the trace with 2^16 + 1 modules, recording
`(0x3000, 6)` resolves at index 65536 and stores `mod_id = 0`. -/
theorem C10_mod_id_truncated_witness :
    bigTrace.add 0x3000 6 = .ok { bigTrace with entries := [⟨0, 6, 0⟩] } ∧
    (65536 : Nat) % 2 ^ 16 < 65536 := by
  have hfirst : ∀ j, j < 65536 → ∀ mj : Module,
      bigTrace.modules[j]? = some mj → mj.contains 0x3000 = false := by
    intro j hj mj hmj
    have h2 : bigModules[j]? = some mj := hmj
    rw [bigModules_getElem_lt j hj] at h2
    cases h2
    decide
  have h := C10_mod_id_truncated bigTrace 0x3000 6 65536 mLast
    bigModules_getElem_last (by decide) hfirst (by decide) (by decide)
    (by decide)
  constructor
  · have h1 := h.1
    simpa [bigTrace, Trace.new, mLast] using h1
  · exact h.2

/-- C6: `Trace::write` emits, in this exact order: the version line, the
flavor line, the module-table header declaring version 4 and count N,
the fixed column-name line, the N module rows in id order (each the
`id, 0, 0x<base>, 0x<end>, 0, 0, name` row built by `moduleRow`), the
`BB Table: M bbs` line, and then the M binary records in insertion
order — a one-to-one image of the entry list, so no sorting, merging or
delta-encoding — totalling exactly `8 * M` raw bytes. -/
theorem C6_write_layout (t : Trace) :
    t.write =
      OutItem.line ("DRCOV VERSION: " ++ t.version.display) ::
      OutItem.line ("DRCOV FLAVOR: " ++ t.flavor) ::
      OutItem.line ("Module Table: version 4, count " ++
        toString t.modules.length) ::
      OutItem.line "Columns: id, containing_id, start, end, entry, offset, path" ::
      (t.modules.enum.map (fun p => OutItem.line (moduleRow p.1 p.2)) ++
        (OutItem.line ("BB Table: " ++ toString t.entries.length ++ " bbs") ::
          t.entries.map (fun e => OutItem.bytes e.encode))) ∧
    (t.modules.enum.map (fun p => OutItem.line (moduleRow p.1 p.2))).length =
      t.modules.length ∧
    binSize t.write = 8 * t.entries.length := by
  refine ⟨?_, ?_, ?_⟩
  · rw [Trace.write, writeModuleRows_eq, writeEntries_eq]
    rfl
  · simp
  · rw [Trace.write]
    simp [binSize, binSize_append, binSize_writeModuleRows,
      binSize_writeEntries]

/-- C7: each basic-block record encodes to exactly 8 bytes with no
separator: bytes 0–3 hold the 32-bit unsigned start offset, bytes 4–5
the 16-bit unsigned size, bytes 6–7 the 16-bit unsigned module id. -/
theorem C7_encode_layout (e : BasicBlockEntry)
    (h1 : e.start ≤ U32_MAX) (h2 : e.size ≤ U16_MAX)
    (h3 : e.mod_id ≤ U16_MAX) :
    e.encode.length = 8 ∧
    fromBytesLE (e.encode.take 4) = e.start ∧
    fromBytesLE ((e.encode.drop 4).take 2) = e.size ∧
    fromBytesLE (e.encode.drop 6) = e.mod_id := by
  have hA : (toBytesLE 4 e.start).length = 4 := toBytesLE_length 4 e.start
  have hB : (toBytesLE 2 e.size).length = 2 := toBytesLE_length 2 e.size
  have hAB : (toBytesLE 4 e.start ++ toBytesLE 2 e.size).length = 6 := by
    rw [List.length_append, hA, hB]
  have hp32 : (256 : Nat) ^ 4 = 4294967296 := by norm_num
  have hp16 : (256 : Nat) ^ 2 = 65536 := by norm_num
  have hu32 : U32_MAX = 4294967295 := by norm_num [U32_MAX]
  have hu16 : U16_MAX = 65535 := by norm_num [U16_MAX]
  refine ⟨encode_length e, ?_, ?_, ?_⟩
  · rw [BasicBlockEntry.encode, List.append_assoc,
      take_append_of_length _ _ _ hA, fromBytesLE_toBytesLE]
    rw [Nat.mod_eq_of_lt (by omega)]
  · rw [BasicBlockEntry.encode, List.append_assoc,
      drop_append_of_length _ _ _ hA, take_append_of_length _ _ _ hB,
      fromBytesLE_toBytesLE]
    rw [Nat.mod_eq_of_lt (by omega)]
  · rw [BasicBlockEntry.encode, drop_append_of_length _ _ _ hAB,
      fromBytesLE_toBytesLE]
    rw [Nat.mod_eq_of_lt (by omega)]

/-- Witness for C7: the spec scenario's first record
`{start = 0x204, size = 3, mod_id = 0}` encodes to 8 bytes whose three
little-endian fields decode back to the three values. -/
theorem C7_encode_layout_witness :
    (BasicBlockEntry.mk 0x204 3 0).encode.length = 8 ∧
    fromBytesLE ((BasicBlockEntry.mk 0x204 3 0).encode.take 4) = 0x204 ∧
    fromBytesLE (((BasicBlockEntry.mk 0x204 3 0).encode.drop 4).take 2) = 3 ∧
    fromBytesLE ((BasicBlockEntry.mk 0x204 3 0).encode.drop 6) = 0 :=
  C7_encode_layout ⟨0x204, 3, 0⟩ (by decide) (by decide) (by decide)

end Drcov
